import Mathlib

/-!
Shallow embedding of the CMA listings ingestion pipeline (ingest.py).

Tables are lists of records; a missing cell (pandas NaN / pd.NA) is `none`.
Dates are encoded as `y*10000 + m*100 + d : Nat`, which preserves calendar
order; prices are exact rationals (no claim depends on float rounding).
Pandas library behaviour that the source relies on (strict-format
`to_datetime`, `to_numeric`, stable multi-key `sort_values` with NaN last,
`drop_duplicates(keep="first")`, `merge(how="left")` emitting one row per
matching right-hand row, `quantile` with linear interpolation,
`value_counts(dropna=False)`) is embedded by its documented semantics.
-/

namespace Ingest

/-- Strip leading and trailing whitespace from a character list
(Python str.strip / pandas str.strip). -/
def stripL (cs : List Char) : List Char :=
  ((cs.dropWhile Char.isWhitespace).reverse.dropWhile Char.isWhitespace).reverse

/-- Python str.strip on a string. -/
def pyStrip (s : String) : String := ⟨stripL s.data⟩

/-- Python str.lower on a string. -/
def pyLower (s : String) : String := ⟨s.data.map Char.toLower⟩

/-- Split a character list on a separator character; always returns at
least one (possibly empty) part. -/
def splitOnChar (sep : Char) : List Char → List (List Char)
  | [] => [[]]
  | c :: rest =>
    let r := splitOnChar sep rest
    if c = sep then [] :: r else (c :: r.headD []) :: r.tail

/-- Python str.title semantics on a character list: a character is
uppercased when the previous character is not alphabetic, lowercased
otherwise. -/
def titleAux : Bool → List Char → List Char
  | _, [] => []
  | prevAlpha, c :: cs =>
    (if prevAlpha then c.toLower else c.toUpper) :: titleAux c.isAlpha cs

/-- Python str.title, used by pandas Series.str.title. -/
def pyTitle (s : String) : String := ⟨titleAux false s.data⟩

/-- Numeric value of a digit list, most significant first. -/
def natOfDigits (cs : List Char) : Nat :=
  cs.foldl (fun n c => n * 10 + (c.toNat - 48)) 0

/-- Read a digit field of length between lo and hi, as strptime field
matching does for %Y (1-4 digits) and %m, %d (1-2 digits). -/
def digitsInRange (t : List Char) (lo hi : Nat) : Option Nat :=
  if lo ≤ t.length ∧ t.length ≤ hi ∧ t.all Char.isDigit then
    some (natOfDigits t)
  else none

/-- Gregorian leap-year rule. -/
def isLeap (y : Nat) : Bool := y % 4 == 0 && (y % 100 != 0 || y % 400 == 0)

/-- Number of days in a month. -/
def daysInMonth (y m : Nat) : Nat :=
  if m = 2 then (if isLeap y then 29 else 28)
  else if m = 4 ∨ m = 6 ∨ m = 9 ∨ m = 11 then 30
  else 31

/-- pd.to_datetime with format "%Y-%m-%d" and errors="coerce": the whole
string must be year-month-day separated by hyphens with a valid calendar
date, otherwise the result is the absent sentinel (NaT, here `none`).
The date is encoded as y*10000 + m*100 + d, which is order-preserving. -/
def parseDate (s : String) : Option Nat :=
  match splitOnChar '-' s.data with
  | [ys, ms, ds] =>
    match digitsInRange ys 1 4, digitsInRange ms 1 2, digitsInRange ds 1 2 with
    | some y, some m, some d =>
      if 1 ≤ m ∧ m ≤ 12 ∧ 1 ≤ d ∧ d ≤ daysInMonth y m then
        some (y * 10000 + m * 100 + d)
      else none
    | _, _, _ => none
  | _ => none

/-- Split a character list at the first dot, if any. -/
def splitDot (cs : List Char) : List Char × Option (List Char) :=
  match cs.span (· ≠ '.') with
  | (a, []) => (a, none)
  | (a, _ :: b) => (a, some b)

/-- pd.to_numeric with errors="coerce" on a string cell: Python float
syntax (optional surrounding whitespace, optional sign, decimal digits
with an optional single point, at least one digit), absent (`none`) on
any failure. Exponent and inf/nan spellings are not modelled; no claim
depends on them. -/
def parsePrice (s : String) : Option ℚ :=
  let t := stripL s.data
  let su : Int × List Char :=
    match t with
    | '-' :: rest => (-1, rest)
    | '+' :: rest => (1, rest)
    | _ => (1, t)
  let ip := (splitDot su.2).1
  let fp := (splitDot su.2).2.getD []
  if ip.all Char.isDigit ∧ fp.all Char.isDigit ∧ (ip ≠ [] ∨ fp ≠ []) then
    some (mkRat (su.1 * (natOfDigits ip * 10 ^ fp.length + natOfDigits fp)) (10 ^ fp.length))
  else none

/-- One raw listings row: the seven required columns as read from CSV,
a missing cell being `none`. -/
structure RawRow where
  date : Option String
  seller_id : Option String
  region : Option String
  category : Option String
  item_id : Option String
  price_gbp : Option String
  condition : Option String
deriving DecidableEq, Repr

/-- One row after coerce_types: raw columns (strings normalised in place
as the source does) plus the two derived typed columns. -/
structure TypedRow where
  date : Option String
  seller_id : Option String
  region : Option String
  category : Option String
  item_id : Option String
  price_gbp : Option String
  condition : Option String
  date_parsed : Option Nat
  price_gbp_num : Option ℚ
deriving DecidableEq, Repr

/-- One row of the category lookup table. -/
structure LookupRow where
  category : Option String
  segment : Option String
deriving DecidableEq, Repr

/-- One row after the left join: the typed row plus the attached segment. -/
structure EnrichedRow where
  row : TypedRow
  segment : Option String
deriving DecidableEq, Repr

/-- One row of the clean output table (out_cols selection with
date_parsed renamed to date and price_gbp_num renamed to price_gbp). -/
structure OutRow where
  date : Option Nat
  seller_id : Option String
  region : Option String
  category : Option String
  segment : Option String
  item_id : Option String
  price_gbp : Option ℚ
  condition : Option String
deriving DecidableEq, Repr

def REQUIRED_COLS : List String :=
  ["date", "seller_id", "region", "category", "item_id", "price_gbp", "condition"]

def VALID_REGIONS : List String := ["North", "South", "East", "West"]

def VALID_CONDITION : List String := ["new", "used", "refurbished"]

/-- standardise_columns: strip and lowercase every header name. -/
def standardiseColumns (headers : List String) : List String :=
  headers.map (fun c => pyLower (pyStrip c))

/-- The required columns absent from the standardised header list, in
REQUIRED_COLS order (the list interpolated into the fatal error). -/
def missingCols (headers : List String) : List String :=
  REQUIRED_COLS.filter (fun c => ¬ (standardiseColumns headers).contains c)

/-- coerce_types on one row: date_parsed and price_gbp_num derived from
the raw date and price_gbp cells; seller_id, region, category, item_id,
condition stripped; region and category then title-cased, condition
lower-cased. The raw date and price_gbp cells are left unchanged. -/
def coerceRow (r : RawRow) : TypedRow :=
  { date := r.date
    seller_id := r.seller_id.map pyStrip
    region := (r.region.map pyStrip).map pyTitle
    category := (r.category.map pyStrip).map pyTitle
    item_id := r.item_id.map pyStrip
    price_gbp := r.price_gbp
    condition := (r.condition.map pyStrip).map pyLower
    date_parsed := r.date.bind parseDate
    price_gbp_num := r.price_gbp.bind parsePrice }

/-- Column access on a typed row by (already standardised) column name,
as df[c] for the required columns does in validate. -/
def getCol (r : TypedRow) (c : String) : Option String :=
  if c = "date" then r.date
  else if c = "seller_id" then r.seller_id
  else if c = "region" then r.region
  else if c = "category" then r.category
  else if c = "item_id" then r.item_id
  else if c = "price_gbp" then r.price_gbp
  else r.condition

/-- invalid_date mask: date_parsed is NaT. -/
def invalidDate (r : TypedRow) : Bool := r.date_parsed.isNone

/-- price_gbp_num <= 0 as pandas computes it: False on NaN. -/
def priceNonPos : Option ℚ → Bool
  | none => false
  | some q => decide (q ≤ 0)

/-- invalid_price mask: price_gbp_num.isna() | (price_gbp_num <= 0). -/
def invalidPrice (r : TypedRow) : Bool :=
  r.price_gbp_num.isNone || priceNonPos r.price_gbp_num

/-- Series.isin on an Option cell: a missing value is in no set. -/
def isinOpt (o : Option String) (vs : List String) : Bool :=
  match o with
  | none => false
  | some s => vs.contains s

/-- invalid_region mask: ~region.isin(VALID_REGIONS). -/
def invalidRegion (r : TypedRow) : Bool := !(isinOpt r.region VALID_REGIONS)

/-- invalid_condition mask: ~condition.isin(VALID_CONDITION). -/
def invalidCondition (r : TypedRow) : Bool := !(isinOpt r.condition VALID_CONDITION)

/-- The three per-column conjuncts of the essential-field loop:
not isna, strip().notna() (true whenever the cell is present), and
strip() != "". -/
def essOk (c : Option String) : Bool :=
  !c.isNone && (c.map pyStrip).isSome && ((c.map pyStrip).getD "" != "")

def ESSENTIAL : List String :=
  ["date", "seller_id", "category", "item_id", "price_gbp"]

/-- The per-row validity mask of validate: all four invalid masks false
and every essential field present and non-empty after stripping. -/
def rowMask (r : TypedRow) : Bool :=
  (!(invalidDate r) && !(invalidPrice r) && !(invalidRegion r) && !(invalidCondition r))
    && essOk r.date && essOk r.seller_id && essOk r.category
    && essOk r.item_id && essOk r.price_gbp

/-- The validation issue tally of validate. null counts use isna();
empty counts use astype(str).strip() == "", which is never true for a
missing cell (str(NaN) is the non-empty text "nan"). -/
structure Issues where
  missing_nulls : List (String × Nat)
  missing_empty : List (String × Nat)
  invalid_date : Nat
  invalid_price : Nat
  invalid_region : Nat
  invalid_condition : Nat
deriving DecidableEq, Repr

/-- Whether a present cell strips to the empty string. -/
def isEmptyCell : Option String → Bool
  | none => false
  | some s => pyStrip s == ""

def issuesOf (df : List TypedRow) : Issues :=
  { missing_nulls := REQUIRED_COLS.map (fun c => (c, df.countP (fun r => (getCol r c).isNone)))
    missing_empty := REQUIRED_COLS.map (fun c => (c, df.countP (fun r => isEmptyCell (getCol r c))))
    invalid_date := df.countP invalidDate
    invalid_price := df.countP invalidPrice
    invalid_region := df.countP invalidRegion
    invalid_condition := df.countP invalidCondition }

/-- validate: the per-row validity mask and the issue tally. -/
def validate (df : List TypedRow) : List Bool × Issues :=
  (df.map rowMask, issuesOf df)

/-- Pair each row with its original position, the index a pandas frame
carries through sort_values and drop_duplicates. -/
def withIdxFrom (i : Nat) : List TypedRow → List (Nat × TypedRow)
  | [] => []
  | a :: l => (i, a) :: withIdxFrom (i + 1) l

def enumRows (df : List TypedRow) : List (Nat × TypedRow) := withIdxFrom 0 df

/-- NaN cells sort last (na_position="last"), so a missing value maps
to the top element. -/
def toTop {α : Type} : Option α → WithTop α
  | none => ⊤
  | some a => (a : WithTop α)

/-- A string cell as a sort-key component: its character list, compared
lexicographically by code point as pandas compares Python strings, with
a missing cell sorting last. -/
def toTopS : Option String → WithTop (List Char)
  | none => ⊤
  | some s => (s.data : WithTop (List Char))

/-- Lexicographic sort key of sort_values(["date_parsed","seller_id",
"item_id","price_gbp_num"], kind="stable"): the four columns, and the
original position as the stability tie-break. -/
abbrev SortKey :=
  WithTop Nat ×ₗ (WithTop (List Char) ×ₗ (WithTop (List Char) ×ₗ (WithTop ℚ ×ₗ Nat)))

def sortKey (p : Nat × TypedRow) : SortKey :=
  toLex (toTop p.2.date_parsed,
    toLex (toTopS p.2.seller_id,
      toLex (toTopS p.2.item_id,
        toLex (toTop p.2.price_gbp_num, p.1))))

/-- The four sort columns without the positional tie-break: the order
the deduplicated output is guaranteed to be in. -/
abbrev RowKey :=
  WithTop Nat ×ₗ (WithTop (List Char) ×ₗ (WithTop (List Char) ×ₗ WithTop ℚ))

def rkey (r : TypedRow) : RowKey :=
  toLex (toTop r.date_parsed,
    toLex (toTopS r.seller_id,
      toLex (toTopS r.item_id, toTop r.price_gbp_num)))

def sortLe (p q : Nat × TypedRow) : Prop := sortKey p ≤ sortKey q

instance : DecidableRel sortLe := fun p q =>
  inferInstanceAs (Decidable (sortKey p ≤ sortKey q))

instance : IsTotal (Nat × TypedRow) sortLe :=
  ⟨fun a b => le_total (sortKey a) (sortKey b)⟩

instance : IsTrans (Nat × TypedRow) sortLe :=
  ⟨fun _ _ _ h₁ h₂ => le_trans h₁ h₂⟩

/-- The stable multi-key sort of dedupe, as a sort of position-tagged
rows by (sort columns, original position). -/
def sortIndexed (df : List TypedRow) : List (Nat × TypedRow) :=
  (enumRows df).insertionSort sortLe

/-- The natural key of drop_duplicates: (date_parsed, seller_id, item_id). -/
def naturalKey (r : TypedRow) : Option Nat × Option String × Option String :=
  (r.date_parsed, r.seller_id, r.item_id)

/-- drop_duplicates(keep="first"): keep each row whose natural key has
not been seen earlier in the list. -/
def dropDupAux (seen : List (Option Nat × Option String × Option String)) :
    List (Nat × TypedRow) → List (Nat × TypedRow)
  | [] => []
  | p :: ps =>
    if naturalKey p.2 ∈ seen then dropDupAux seen ps
    else p :: dropDupAux (naturalKey p.2 :: seen) ps

def dedupeIndexed (df : List TypedRow) : List (Nat × TypedRow) :=
  dropDupAux [] (sortIndexed df)

/-- dedupe: stable sort by the four columns, keep the first row of each
natural-key group, and report how many rows were removed. -/
def dedupe (df : List TypedRow) : List TypedRow × Nat :=
  let kept := (dedupeIndexed df).map Prod.snd
  (kept, df.length - kept.length)

/-- The lookup rows a typed row matches in the left join: lookup
category title-cased, then compared with the row's category (pandas
merge also matches missing keys with each other). -/
def lkMatches (r : TypedRow) (lk : List LookupRow) : List LookupRow :=
  lk.filter (fun l => l.category.map pyTitle == r.category)

/-- Concatenated image of a list under a list-valued function. -/
def concatMap (f : α → List β) : List α → List β
  | [] => []
  | a :: l => f a ++ concatMap f l

/-- One row's contribution to the left join: one output row per match,
or the row with an absent segment when nothing matches. -/
def enrichRow (r : TypedRow) (lk : List LookupRow) : List EnrichedRow :=
  match lkMatches r lk with
  | [] => [{ row := r, segment := none }]
  | ms => ms.map (fun l => { row := r, segment := l.segment })

/-- enrich: merge(lookup, how="left", on="category") after title-casing
the lookup's category column. -/
def enrich (df : List TypedRow) (lk : List LookupRow) : List EnrichedRow :=
  concatMap (enrichRow · lk) df

/-- Column selection and renaming of the output table (out_cols and
rename in main). -/
def selectOut (e : EnrichedRow) : OutRow :=
  { date := e.row.date_parsed
    seller_id := e.row.seller_id
    region := e.row.region
    category := e.row.category
    segment := e.segment
    item_id := e.row.item_id
    price_gbp := e.row.price_gbp_num
    condition := e.row.condition }

/-- The five price summary fields of quality_stats. -/
structure PriceStats where
  min : Option ℚ
  max : Option ℚ
  avg : Option ℚ
  p50 : Option ℚ
  p95 : Option ℚ
deriving DecidableEq, Repr

/-- quality_stats output. The three frequency mappings model
value_counts(dropna=False) as multiplicity functions over the optional
cell values, the `none` argument being the NaN bucket. -/
structure QualityStats where
  row_count : Nat
  price : PriceStats
  by_region : Option String → Nat
  by_category : Option String → Nat
  by_segment : Option String → Nat

def listMin : List ℚ → ℚ
  | [] => 0
  | x :: xs => xs.foldl min x

def listMax : List ℚ → ℚ
  | [] => 0
  | x :: xs => xs.foldl max x

def listSum (l : List ℚ) : ℚ := l.foldl (· + ·) 0

/-- Linear interpolation between order statistics of an ascending list,
the interpolation rule of Series.quantile: with h = p*(n-1), the value
is s[floor h] + (h - floor h) * (s[floor h + 1] - s[floor h]), the
upper index clamped to n-1. -/
def linInterp (s : List ℚ) (p : ℚ) : ℚ :=
  let n := s.length
  let h := p * ((n : ℚ) - 1)
  let j := (⌊h⌋).toNat
  let g := h - (j : ℚ)
  s.getD j 0 + g * (s.getD (min (j + 1) (n - 1)) 0 - s.getD j 0)

/-- Series.quantile with the default linear interpolation. -/
def quantileQ (l : List ℚ) (p : ℚ) : ℚ :=
  linInterp (l.insertionSort (· ≤ ·)) p

/-- quality_stats. The price series is the non-null part of the output
price column (df_out always carries a "price_gbp" column, so the
price_gbp_num fallback branch of the source is dead in the pipeline);
hasSegment mirrors the source's check that a "segment" column exists. -/
def qualityStats (rows : List OutRow) (hasSegment : Bool) : QualityStats :=
  let price := rows.filterMap (fun r => r.price_gbp)
  { row_count := rows.length
    price :=
      { min := if price.length ≠ 0 then some (listMin price) else none
        max := if price.length ≠ 0 then some (listMax price) else none
        avg := if price.length ≠ 0 then some (listSum price / (price.length : ℚ)) else none
        p50 := if price.length ≠ 0 then some (quantileQ price (1 / 2)) else none
        p95 := if price.length ≠ 0 then some (quantileQ price (19 / 20)) else none }
    by_region := fun k => rows.countP (fun r => r.region == k)
    by_category := fun k => rows.countP (fun r => r.category == k)
    by_segment :=
      if hasSegment then (fun k => rows.countP (fun r => r.segment == k))
      else fun _ => 0 }

/-- The data quality report of main. -/
structure Report where
  input_rows : Nat
  validation_issues : Issues
  rows_removed_invalid : Nat
  rows_removed_duplicates : Nat
  output : QualityStats

/-- The clean output table produced by main on a schema-complete input:
coerce, filter by the validity mask, dedupe, enrich, select columns. -/
def cleanOutput (rows : List RawRow) (lk : List LookupRow) : List OutRow :=
  let typed := rows.map coerceRow
  let dfValid := typed.filter rowMask
  let deduped := (dedupe dfValid).1
  (enrich deduped lk).map selectOut

/-- The data quality report produced by main on a schema-complete input. -/
def buildReport (rows : List RawRow) (lk : List LookupRow) : Report :=
  let typed := rows.map coerceRow
  let dfValid := typed.filter rowMask
  { input_rows := rows.length
    validation_issues := issuesOf typed
    rows_removed_invalid := (typed.filter (fun r => !rowMask r)).length
    rows_removed_duplicates := (dedupe dfValid).2
    output := qualityStats (cleanOutput rows lk) true }

/-- main: abort with the list of missing required columns when the
standardised header set lacks any of them, otherwise run the pipeline
and return the clean table and the report. -/
def runPipeline (headers : List String) (rows : List RawRow)
    (lk : List LookupRow) : Except (List String) (List OutRow × Report) :=
  if missingCols headers ≠ [] then .error (missingCols headers)
  else .ok (cleanOutput rows lk, buildReport rows lk)

/-- A concrete raw row whose date and price_gbp carry surrounding
whitespace. -/
def c5Row : RawRow :=
  { date := some " 2024-01-05"
    seller_id := some "S1"
    region := some "north"
    category := some "Tools"
    item_id := some "I1"
    price_gbp := some " 19.99 "
    condition := some "new" }

/-- A concrete valid typed row used by the join counterexamples. -/
def c3Row : TypedRow :=
  { date := some "2024-01-05"
    seller_id := some "S1"
    region := some "North"
    category := some "Tools"
    item_id := some "I1"
    price_gbp := some "19.99"
    condition := some "new"
    date_parsed := some 20240105
    price_gbp_num := some 5 }

/-- A lookup table whose title-cased category keys collide. -/
def c3Lk : List LookupRow :=
  [{ category := some "tools", segment := some "DIY" },
   { category := some "Tools", segment := some "Home" }]

/-- A header list lacking the date column. -/
def c6Headers : List String :=
  ["seller_id", "region", "category", "item_id", "price_gbp", "condition"]

/-- A valid typed row, lowest-priced of its duplicate group. -/
def c2RowA : TypedRow :=
  { date := some "2024-01-05"
    seller_id := some "S1"
    region := some "North"
    category := some "Tools"
    item_id := some "I1"
    price_gbp := some "12.00"
    condition := some "new"
    date_parsed := some 20240105
    price_gbp_num := some 12 }

/-- A duplicate of c2RowA's natural key with a lower price. -/
def c2RowB : TypedRow :=
  { c2RowA with price_gbp := some "10.00", price_gbp_num := some 10 }

/-- A two-row table whose rows share the natural key. -/
def c2Rows : List TypedRow := [c2RowA, c2RowB]

/-- A one-row raw listings table with a valid row. -/
def c4Rows : List RawRow :=
  [{ date := some "2024-01-05"
     seller_id := some "S1"
     region := some "north"
     category := some "Tools"
     item_id := some "I1"
     price_gbp := some "19.99"
     condition := some "new" }]

/-- A lookup table with a unique title-cased category key. -/
def c4LkU : List LookupRow := [{ category := some "tools", segment := some "DIY" }]

/-- A one-row raw listings table for the output-validity witness. -/
def c9Rows : List RawRow :=
  [{ date := some "2024-01-05"
     seller_id := some "S9"
     region := some "west"
     category := some "Toys"
     item_id := some "I9"
     price_gbp := some "5"
     condition := some "used" }]

/-- The clean output row the pipeline produces from c9Rows. -/
def c9Out : OutRow :=
  { date := some 20240105
    seller_id := some "S9"
    region := some "West"
    category := some "Toys"
    segment := none
    item_id := some "I9"
    price_gbp := some (mkRat 5 1)
    condition := some "used" }

/-- A two-row output table with prices 1 and 3 for the statistics
witness. -/
def c7Rows : List OutRow :=
  [{ date := some 20240101, seller_id := some "A", region := some "North",
     category := some "Toys", segment := none, item_id := some "X",
     price_gbp := some 1, condition := some "new" },
   { date := some 20240102, seller_id := some "B", region := none,
     category := some "Toys", segment := none, item_id := some "Y",
     price_gbp := some 3, condition := some "used" }]

/-! Helper lemmas about the validity mask. -/

lemma essOk_iff (c : Option String) :
    essOk c = true ↔ ∃ s, c = some s ∧ pyStrip s ≠ "" := by
  cases c <;> simp [essOk]

lemma invalidDate_false_iff (r : TypedRow) :
    invalidDate r = false ↔ r.date_parsed.isSome = true := by
  cases h : r.date_parsed <;> simp [invalidDate, h]

lemma invalidPrice_false_iff (r : TypedRow) :
    invalidPrice r = false ↔ ∃ q, r.price_gbp_num = some q ∧ 0 < q := by
  cases h : r.price_gbp_num with
  | none => simp [invalidPrice, h]
  | some q => simp [invalidPrice, h, priceNonPos, not_le]

lemma isinOpt_iff (o : Option String) (vs : List String) :
    isinOpt o vs = true ↔ ∃ s, o = some s ∧ s ∈ vs := by
  cases o <;> simp [isinOpt]

lemma invalidRegion_false_iff (r : TypedRow) :
    invalidRegion r = false ↔ ∃ s, r.region = some s ∧ s ∈ VALID_REGIONS := by
  rw [invalidRegion, Bool.not_eq_false']
  exact isinOpt_iff _ _

lemma invalidCondition_false_iff (r : TypedRow) :
    invalidCondition r = false ↔ ∃ s, r.condition = some s ∧ s ∈ VALID_CONDITION := by
  rw [invalidCondition, Bool.not_eq_false']
  exact isinOpt_iff _ _

/-- The validity mask, unfolded to the conjunction of the five rule
families of the spec. -/
lemma rowMask_iff (r : TypedRow) :
    rowMask r = true ↔
      (r.date_parsed.isSome = true
        ∧ (∃ q, r.price_gbp_num = some q ∧ 0 < q)
        ∧ (∃ s, r.region = some s ∧ s ∈ VALID_REGIONS)
        ∧ (∃ s, r.condition = some s ∧ s ∈ VALID_CONDITION)
        ∧ (∃ s, r.date = some s ∧ pyStrip s ≠ "")
        ∧ (∃ s, r.seller_id = some s ∧ pyStrip s ≠ "")
        ∧ (∃ s, r.category = some s ∧ pyStrip s ≠ "")
        ∧ (∃ s, r.item_id = some s ∧ pyStrip s ≠ "")
        ∧ (∃ s, r.price_gbp = some s ∧ pyStrip s ≠ "")) := by
  simp only [rowMask, Bool.and_eq_true, Bool.not_eq_true', invalidDate_false_iff,
    invalidPrice_false_iff, invalidRegion_false_iff, invalidCondition_false_iff, essOk_iff]
  tauto

lemma filter_partition_length (p : α → Bool) (l : List α) :
    (l.filter p).length + (l.filter (fun a => !p a)).length = l.length := by
  induction l with
  | nil => rfl
  | cons a l ih =>
    by_cases h : p a = true <;>
      simp [List.filter_cons, h, ← ih] <;> omega

/-- C1: a normalized row is marked valid by the Validator exactly when
date_parsed is present, price_gbp_num is present and strictly positive,
region and condition are in their controlled vocabularies, and the five
essential columns date, seller_id, category, item_id, price_gbp are
present and non-empty after stripping; each invalid-rule tally counts the
rows failing that rule independently of the others, and the valid/invalid
split counts every row exactly once. -/
theorem C1_validate_mask (df : List TypedRow) :
    (∀ r : TypedRow, rowMask r = true ↔
      (r.date_parsed.isSome = true
        ∧ (∃ q, r.price_gbp_num = some q ∧ 0 < q)
        ∧ (∃ s, r.region = some s ∧ s ∈ VALID_REGIONS)
        ∧ (∃ s, r.condition = some s ∧ s ∈ VALID_CONDITION)
        ∧ (∃ s, r.date = some s ∧ pyStrip s ≠ "")
        ∧ (∃ s, r.seller_id = some s ∧ pyStrip s ≠ "")
        ∧ (∃ s, r.category = some s ∧ pyStrip s ≠ "")
        ∧ (∃ s, r.item_id = some s ∧ pyStrip s ≠ "")
        ∧ (∃ s, r.price_gbp = some s ∧ pyStrip s ≠ "")))
    ∧ (validate df).1 = df.map rowMask
    ∧ (validate df).2.invalid_date = (df.filter invalidDate).length
    ∧ (validate df).2.invalid_price = (df.filter invalidPrice).length
    ∧ (validate df).2.invalid_region = (df.filter invalidRegion).length
    ∧ (validate df).2.invalid_condition = (df.filter invalidCondition).length
    ∧ (df.filter (fun r => rowMask r)).length
        + (df.filter (fun r => !rowMask r)).length = df.length := by
  refine ⟨rowMask_iff, rfl, ?_, ?_, ?_, ?_, filter_partition_length _ _⟩ <;>
    simp [validate, issuesOf, List.countP_eq_length_filter]

/-- C5 (amended): after the Schema Normalizer, region and category are
stripped then title-cased, condition is stripped then lower-cased, and
seller_id and item_id are stripped; the raw date and price_gbp cells are
carried through unchanged — in particular they are NOT whitespace-trimmed,
contrary to the claim's reading that all string fields including date and
price_gbp are trimmed. -/
theorem C5_normalizer_invariant (r : RawRow) :
    (coerceRow r).region = r.region.map (fun s => pyTitle (pyStrip s))
    ∧ (coerceRow r).category = r.category.map (fun s => pyTitle (pyStrip s))
    ∧ (coerceRow r).condition = r.condition.map (fun s => pyLower (pyStrip s))
    ∧ (coerceRow r).seller_id = r.seller_id.map pyStrip
    ∧ (coerceRow r).item_id = r.item_id.map pyStrip
    ∧ (coerceRow r).date = r.date
    ∧ (coerceRow r).price_gbp = r.price_gbp := by
  refine ⟨?_, ?_, ?_, rfl, rfl, rfl, rfl⟩ <;>
    simp [coerceRow, Option.map_map, Function.comp_def]

/-- C5 counterexample: the Schema Normalizer leaves the raw date and
price_gbp cells untrimmed, so the claim that all string fields including
date and price_gbp are whitespace-trimmed fails on this row. -/
theorem C5_counterexample :
    (coerceRow c5Row).date = some " 2024-01-05"
    ∧ pyStrip " 2024-01-05" ≠ " 2024-01-05"
    ∧ (coerceRow c5Row).price_gbp = some " 19.99 "
    ∧ pyStrip " 19.99 " ≠ " 19.99 " :=
  ⟨rfl, by decide, rfl, by decide⟩

/-- C8: the pipeline is a pure function of its two input tables and the
header list; runs on identical inputs produce identical clean output
tables and identical data-quality reports. -/
theorem C8_deterministic (h₁ h₂ : List String) (r₁ r₂ : List RawRow)
    (l₁ l₂ : List LookupRow) (hh : h₁ = h₂) (hr : r₁ = r₂) (hl : l₁ = l₂) :
    runPipeline h₁ r₁ l₁ = runPipeline h₂ r₂ l₂ := by
  subst hh hr hl; rfl

/-- Witness for C8 at a concrete input. -/
theorem C8_witness :
    runPipeline REQUIRED_COLS [c5Row] [] = runPipeline REQUIRED_COLS [c5Row] [] :=
  C8_deterministic REQUIRED_COLS REQUIRED_COLS [c5Row] [c5Row] [] [] rfl rfl rfl

/-! Helper lemmas about the left join. -/

lemma enrichRow_length (r : TypedRow) (lk : List LookupRow) :
    (enrichRow r lk).length = max 1 (lkMatches r lk).length := by
  cases h : lkMatches r lk with
  | nil => simp [enrichRow, h]
  | cons a l => simp [enrichRow, h]

lemma enrich_cons (r : TypedRow) (df : List TypedRow) (lk : List LookupRow) :
    enrich (r :: df) lk = enrichRow r lk ++ enrich df lk := rfl

lemma enrich_length (df : List TypedRow) (lk : List LookupRow) :
    (enrich df lk).length = (df.map (fun r => max 1 (lkMatches r lk).length)).sum := by
  induction df with
  | nil => rfl
  | cons r df ih => simp [enrich_cons, enrichRow_length, ih]

lemma length_le_enrich (df : List TypedRow) (lk : List LookupRow) :
    df.length ≤ (enrich df lk).length := by
  induction df with
  | nil => simp
  | cons r df ih =>
    have h1 : 1 ≤ (enrichRow r lk).length := by rw [enrichRow_length]; omega
    simp only [enrich_cons, List.length_append, List.length_cons]
    omega

lemma enrich_length_of_unique (df : List TypedRow) (lk : List LookupRow)
    (h : ∀ r ∈ df, (lkMatches r lk).length ≤ 1) :
    (enrich df lk).length = df.length := by
  induction df with
  | nil => rfl
  | cons r df ih =>
    have h1 : (enrichRow r lk).length = 1 := by
      rw [enrichRow_length]
      have := h r (List.mem_cons_self r df)
      omega
    simp only [enrich_cons, List.length_append, List.length_cons, h1,
      ih (fun x hx => h x (List.mem_cons_of_mem r hx))]
    omega

lemma enrich_length_strict (df : List TypedRow) (lk : List LookupRow)
    (h : ∃ r ∈ df, 2 ≤ (lkMatches r lk).length) :
    df.length < (enrich df lk).length := by
  induction df with
  | nil => simp at h
  | cons r df ih =>
    simp only [enrich_cons, List.length_append, List.length_cons]
    rcases h with ⟨x, hx, h2⟩
    rcases List.mem_cons.mp hx with rfl | hx
    · have h1 : 2 ≤ (enrichRow x lk).length := by rw [enrichRow_length]; omega
      have := length_le_enrich df lk
      omega
    · have h1 : 1 ≤ (enrichRow r lk).length := by rw [enrichRow_length]; omega
      have := ih ⟨x, hx, h2⟩
      omega

lemma mem_enrich_pair {df : List TypedRow} {lk : List LookupRow} {r : TypedRow}
    (hr : r ∈ df) {l : LookupRow} (hl : l ∈ lk)
    (hm : l.category.map pyTitle = r.category) :
    ({ row := r, segment := l.segment } : EnrichedRow) ∈ enrich df lk := by
  induction df with
  | nil => simp at hr
  | cons a df ih =>
    rw [enrich_cons]
    rcases List.mem_cons.mp hr with rfl | hr
    · refine List.mem_append_left _ ?_
      have hml : l ∈ lkMatches r lk := List.mem_filter.mpr ⟨hl, by simp [hm]⟩
      cases h : lkMatches r lk with
      | nil => rw [h] at hml; simp at hml
      | cons b tl =>
        rw [h] at hml
        simpa [enrichRow, h] using List.mem_map_of_mem (fun l => ({ row := r, segment := l.segment } : EnrichedRow)) hml
    · exact List.mem_append_right _ (ih hr)

lemma mem_enrich_nomatch {df : List TypedRow} {lk : List LookupRow} {r : TypedRow}
    (hr : r ∈ df) (h : lkMatches r lk = []) :
    ({ row := r, segment := none } : EnrichedRow) ∈ enrich df lk := by
  induction df with
  | nil => simp at hr
  | cons a df ih =>
    rw [enrich_cons]
    rcases List.mem_cons.mp hr with rfl | hr
    · exact List.mem_append_left _ (by simp [enrichRow, h])
    · exact List.mem_append_right _ (ih hr)

lemma enrich_origin {df : List TypedRow} {lk : List LookupRow} {e : EnrichedRow}
    (he : e ∈ enrich df lk) : e.row ∈ df := by
  induction df with
  | nil => simp [enrich, concatMap] at he
  | cons a df ih =>
    rw [enrich_cons] at he
    rcases List.mem_append.mp he with h | h
    · have hrow : e.row = a := by
        cases hm : lkMatches a lk with
        | nil => rw [enrichRow, hm] at h; simp at h; rw [h]
        | cons b tl =>
          rw [enrichRow, hm] at h
          rcases List.mem_map.mp h with ⟨l, _, rfl⟩
          rfl
      rw [hrow]
      exact List.mem_cons_self a df
    · exact List.mem_cons_of_mem a (ih h)

/-- C3 (amended): the Enricher's left join never reduces the row count
and retains every unmatched row with an absent segment; the output row
count equals the input row count whenever no input row's title-cased
category matches more than one lookup row (in particular whenever the
lookup's keys are unique). With duplicated matching keys the output is
strictly longer, so the claim's unconditional equality fails. -/
theorem C3_left_join (df : List TypedRow) (lk : List LookupRow) :
    df.length ≤ (enrich df lk).length
    ∧ ((∀ r ∈ df, (lkMatches r lk).length ≤ 1) → (enrich df lk).length = df.length)
    ∧ (∀ r ∈ df, lkMatches r lk = [] →
        ({ row := r, segment := none } : EnrichedRow) ∈ enrich df lk) :=
  ⟨length_le_enrich df lk, enrich_length_of_unique df lk,
    fun _ hr hm => mem_enrich_nomatch hr hm⟩

/-- C3 counterexample: with a duplicated lookup key the join emits two
rows for one input row, so the enriched row count does not equal the
input row count. -/
theorem C3_counterexample :
    (enrich [c3Row] c3Lk).length = 2
    ∧ ([c3Row] : List TypedRow).length = 1
    ∧ (enrich [c3Row] c3Lk).length ≠ ([c3Row] : List TypedRow).length := by
  decide

/-- Witness for C3 at a concrete input: a single-match lookup keeps the
count, and an unmatched row is retained with an absent segment. -/
theorem C3_witness :
    (enrich [c3Row] [{ category := some "Gadgets", segment := some "G" }]).length
        = ([c3Row] : List TypedRow).length
    ∧ ({ row := c3Row, segment := none } : EnrichedRow)
        ∈ enrich [c3Row] [{ category := some "Gadgets", segment := some "G" }] := by
  have h := C3_left_join [c3Row] [{ category := some "Gadgets", segment := some "G" }]
  exact ⟨h.2.1 (by decide), h.2.2 c3Row (by decide) (by decide)⟩

/-- C10: the left join emits one output row for every (input row,
matching lookup row) pair: the output length is the sum over input rows
of max 1 (match count), every matching pair contributes its own output
row, and as soon as some input row is matched by at least two lookup
rows the output is strictly longer than the input. -/
theorem C10_duplicate_lookup_keys (df : List TypedRow) (lk : List LookupRow) :
    (enrich df lk).length = (df.map (fun r => max 1 (lkMatches r lk).length)).sum
    ∧ (∀ r ∈ df, ∀ l ∈ lk, l.category.map pyTitle = r.category →
        ({ row := r, segment := l.segment } : EnrichedRow) ∈ enrich df lk)
    ∧ ((∃ r ∈ df, 2 ≤ (lkMatches r lk).length) → df.length < (enrich df lk).length) :=
  ⟨enrich_length df lk, fun _ hr _ hl hm => mem_enrich_pair hr hl hm,
    enrich_length_strict df lk⟩

/-- Witness for C10 at a concrete input with a duplicated lookup key. -/
theorem C10_witness :
    ({ row := c3Row, segment := some "DIY" } : EnrichedRow) ∈ enrich [c3Row] c3Lk
    ∧ ([c3Row] : List TypedRow).length < (enrich [c3Row] c3Lk).length := by
  have h := C10_duplicate_lookup_keys [c3Row] c3Lk
  exact ⟨h.2.1 c3Row (by decide) { category := some "tools", segment := some "DIY" }
      (by decide) (by decide),
    h.2.2 ⟨c3Row, by decide, by decide⟩⟩

/-- C6: the run aborts exactly when some required column is missing from
the standardised headers; the fatal error carries precisely the list of
missing column names and does not depend on the row data; on a
schema-complete header the run always completes whatever the rows
contain, and per-field coercion failures (unparseable date, non-numeric
price) surface as absent values on the coerced row, never as aborts. -/
theorem C6_schema_abort (headers : List String) (rows : List RawRow)
    (lk : List LookupRow) :
    (∀ e, runPipeline headers rows lk = .error e
        ↔ (e = missingCols headers ∧ missingCols headers ≠ []))
    ∧ (missingCols headers = [] →
        runPipeline headers rows lk = .ok (cleanOutput rows lk, buildReport rows lk))
    ∧ (buildReport rows lk).input_rows = rows.length
    ∧ (∀ r : RawRow, ∀ s, r.date = some s → parseDate s = none →
        (coerceRow r).date_parsed = none)
    ∧ (∀ r : RawRow, ∀ s, r.price_gbp = some s → parsePrice s = none →
        (coerceRow r).price_gbp_num = none) := by
  refine ⟨?_, ?_, rfl, ?_, ?_⟩
  · intro e
    by_cases h : missingCols headers = [] <;> simp [runPipeline, h, eq_comm]
  · intro h
    simp [runPipeline, h]
  · intro r s hs hp
    simp [coerceRow, hs, hp]
  · intro r s hs hp
    simp [coerceRow, hs, hp]

/-- Witness for C6 at concrete inputs: the missing date column aborts
the run with exactly that name, and an unparseable date cell coerces to
an absent date_parsed. -/
theorem C6_witness :
    runPipeline c6Headers [c5Row] [] = .error ["date"]
    ∧ (coerceRow { c5Row with date := some "not-a-date" }).date_parsed = none := by
  have h := C6_schema_abort c6Headers [c5Row] []
  exact ⟨(h.1 ["date"]).mpr ⟨by decide, by decide⟩,
    h.2.2.2.1 { c5Row with date := some "not-a-date" } "not-a-date" rfl (by decide)⟩

/-! Helper lemmas about the stable sort and deduplication. -/

lemma map_snd_withIdxFrom (i : Nat) (l : List TypedRow) :
    (withIdxFrom i l).map Prod.snd = l := by
  induction l generalizing i with
  | nil => rfl
  | cons a l ih => simp [withIdxFrom, ih]

lemma mem_withIdxFrom_snd {i : Nat} {l : List TypedRow} {p : Nat × TypedRow}
    (h : p ∈ withIdxFrom i l) : p.2 ∈ l := by
  induction l generalizing i with
  | nil => simp [withIdxFrom] at h
  | cons a l ih =>
    rcases List.mem_cons.mp h with rfl | h
    · exact List.mem_cons_self a l
    · exact List.mem_cons_of_mem a (ih h)

lemma length_withIdxFrom (i : Nat) (l : List TypedRow) :
    (withIdxFrom i l).length = l.length := by
  induction l generalizing i with
  | nil => rfl
  | cons a l ih => simp [withIdxFrom, ih]

lemma dropDupAux_sublist (seen : List (Option Nat × Option String × Option String))
    (l : List (Nat × TypedRow)) : List.Sublist (dropDupAux seen l) l := by
  induction l generalizing seen with
  | nil => simp [dropDupAux]
  | cons p ps ih =>
    rw [dropDupAux]
    split
    · exact (ih seen).cons p
    · exact (ih _).cons₂ p

lemma dropDupAux_keys (seen : List (Option Nat × Option String × Option String))
    (l : List (Nat × TypedRow)) :
    (∀ p ∈ dropDupAux seen l, naturalKey p.2 ∉ seen)
      ∧ (dropDupAux seen l).Pairwise (fun a b => naturalKey a.2 ≠ naturalKey b.2) := by
  induction l generalizing seen with
  | nil => simp [dropDupAux]
  | cons p ps ih =>
    rw [dropDupAux]
    split
    · exact ih seen
    · rename_i hnew
      constructor
      · intro q hq
        rcases List.mem_cons.mp hq with rfl | hq
        · exact hnew
        · exact fun hk => (ih (naturalKey p.2 :: seen)).1 q hq (List.mem_cons_of_mem _ hk)
      · refine List.Pairwise.cons ?_ (ih (naturalKey p.2 :: seen)).2
        intro q hq hk
        exact (ih (naturalKey p.2 :: seen)).1 q hq (hk ▸ List.mem_cons_self _ _)

lemma dropDupAux_covers :
    ∀ {l : List (Nat × TypedRow)}, l.Pairwise sortLe →
      ∀ (seen : List (Option Nat × Option String × Option String)),
      ∀ {q : Nat × TypedRow}, q ∈ l → naturalKey q.2 ∉ seen →
      ∃ p ∈ dropDupAux seen l, naturalKey p.2 = naturalKey q.2 ∧ sortLe p q := by
  intro l
  induction l with
  | nil =>
    intro _ seen q hq _
    simp at hq
  | cons a ps ih =>
    intro hl seen q hq hs
    have ha : ∀ x ∈ ps, sortLe a x := (List.pairwise_cons.mp hl).1
    have hps : ps.Pairwise sortLe := (List.pairwise_cons.mp hl).2
    rw [dropDupAux]
    split
    · rename_i hseen
      rcases List.mem_cons.mp hq with rfl | hq
      · exact absurd hseen hs
      · exact ih hps seen hq hs
    · rename_i hnew
      by_cases hk : naturalKey q.2 = naturalKey a.2
      · refine ⟨a, List.mem_cons_self _ _, hk.symm, ?_⟩
        rcases List.mem_cons.mp hq with rfl | hq
        · exact le_refl (sortKey q)
        · exact ha q hq
      · have hq' : q ∈ ps := by
          rcases List.mem_cons.mp hq with rfl | hq
          · exact absurd rfl hk
          · exact hq
        have hs' : naturalKey q.2 ∉ naturalKey a.2 :: seen := by
          intro h
          rcases List.mem_cons.mp h with h | h
          · exact hk h
          · exact hs h
        obtain ⟨p, hp, hpk, hple⟩ := ih hps (naturalKey a.2 :: seen) hq' hs'
        exact ⟨p, List.mem_cons_of_mem a hp, hpk, hple⟩

lemma sorted_sortIndexed (df : List TypedRow) :
    List.Sorted sortLe (sortIndexed df) :=
  List.sorted_insertionSort sortLe (enumRows df)

lemma perm_sortIndexed (df : List TypedRow) :
    List.Perm (sortIndexed df) (enumRows df) :=
  List.perm_insertionSort sortLe (enumRows df)

lemma mem_dedupeIndexed_enum {df : List TypedRow} {p : Nat × TypedRow}
    (h : p ∈ dedupeIndexed df) : p ∈ enumRows df :=
  (perm_sortIndexed df).subset ((dropDupAux_sublist [] (sortIndexed df)).subset h)

lemma mem_dedupe {df : List TypedRow} {r : TypedRow}
    (h : r ∈ (dedupe df).1) : r ∈ df := by
  obtain ⟨p, hp, rfl⟩ := List.mem_map.mp h
  exact mem_withIdxFrom_snd (mem_dedupeIndexed_enum hp)

lemma dedupe_length_le (df : List TypedRow) :
    (dedupe df).1.length ≤ df.length := by
  have h1 : (dedupeIndexed df).length ≤ (sortIndexed df).length :=
    (dropDupAux_sublist [] (sortIndexed df)).length_le
  have h2 : (sortIndexed df).length = df.length := by
    rw [(perm_sortIndexed df).length_eq, enumRows, length_withIdxFrom]
  simp only [dedupe, List.length_map]
  omega

/-- Lexicographic comparison on the full sort key implies comparison on
the four sort columns alone. -/
lemma sortLe_rowLe {p q : Nat × TypedRow} (h : sortLe p q) : rkey p.2 ≤ rkey q.2 := by
  unfold sortLe sortKey at h
  unfold rkey
  rw [Prod.Lex.le_iff] at h ⊢
  rcases h with h | ⟨h1, h⟩
  · exact Or.inl h
  · refine Or.inr ⟨h1, ?_⟩
    rw [Prod.Lex.le_iff] at h ⊢
    rcases h with h | ⟨h2, h⟩
    · exact Or.inl h
    · refine Or.inr ⟨h2, ?_⟩
      rw [Prod.Lex.le_iff] at h ⊢
      rcases h with h | ⟨h3, h⟩
      · exact Or.inl h
      · refine Or.inr ⟨h3, ?_⟩
        rw [Prod.Lex.le_iff] at h
        rcases h with h | ⟨h4, _⟩
        · exact le_of_lt h
        · exact le_of_eq h4

/-- C2: dedupe reports the number of removed rows; its output is the
positional projection of a selection of position-tagged rows that is
sorted by the four sort columns, keeps at most one row per natural key,
draws every kept row from the input at its original position, and for
every input row keeps a row of the same natural key whose
(sort columns, original position) key is no greater — i.e. the
lowest-priced row of each duplicate group, earliest input position on
price ties, survives. -/
theorem C2_dedupe_sort (df : List TypedRow) :
    (dedupe df).1 = (dedupeIndexed df).map Prod.snd
    ∧ (dedupe df).2 = df.length - (dedupe df).1.length
    ∧ List.Sorted (fun a b => rkey a ≤ rkey b) (dedupe df).1
    ∧ (∀ p ∈ dedupeIndexed df, p ∈ enumRows df)
    ∧ (dedupeIndexed df).Pairwise (fun a b => naturalKey a.2 ≠ naturalKey b.2)
    ∧ (∀ q ∈ enumRows df, ∃ p ∈ dedupeIndexed df,
        naturalKey p.2 = naturalKey q.2 ∧ sortKey p ≤ sortKey q) := by
  refine ⟨rfl, rfl, ?_, fun p hp => mem_dedupeIndexed_enum hp,
    (dropDupAux_keys [] (sortIndexed df)).2, ?_⟩
  · have hsorted : (dedupeIndexed df).Pairwise sortLe :=
      (sorted_sortIndexed df).sublist (dropDupAux_sublist [] (sortIndexed df))
    exact List.Pairwise.map Prod.snd (fun a b hab => sortLe_rowLe hab) hsorted
  · intro q hq
    have hq' : q ∈ sortIndexed df := (perm_sortIndexed df).mem_iff.mpr hq
    exact dropDupAux_covers (sorted_sortIndexed df) [] hq' (by simp)

/-- Witness for C2 at a concrete duplicate pair: the kept row has the
same natural key and a no-greater sort key than the first input row, and
the removed count is the difference of lengths. -/
theorem C2_witness :
    (∃ p ∈ dedupeIndexed c2Rows,
        naturalKey p.2 = naturalKey (0, c2RowA).2 ∧ sortKey p ≤ sortKey (0, c2RowA))
    ∧ (dedupe c2Rows).2 = c2Rows.length - (dedupe c2Rows).1.length := by
  have h := C2_dedupe_sort c2Rows
  exact ⟨h.2.2.2.2.2 (0, c2RowA) (by decide), h.2.1⟩

/-- C9: every row of the clean output table satisfies the full validity
predicate: date present, price present and strictly positive, region and
condition inside their controlled vocabularies. -/
theorem C9_output_rows_valid (rows : List RawRow) (lk : List LookupRow) :
    ∀ o ∈ cleanOutput rows lk,
      o.date.isSome = true
      ∧ (∃ q, o.price_gbp = some q ∧ 0 < q)
      ∧ (∃ s, o.region = some s ∧ s ∈ VALID_REGIONS)
      ∧ (∃ s, o.condition = some s ∧ s ∈ VALID_CONDITION) := by
  intro o ho
  simp only [cleanOutput] at ho
  obtain ⟨e, he, rfl⟩ := List.mem_map.mp ho
  have hrow : e.row ∈ (dedupe ((rows.map coerceRow).filter rowMask)).1 := enrich_origin he
  have hmem : e.row ∈ (rows.map coerceRow).filter rowMask := mem_dedupe hrow
  have hmask : rowMask e.row = true := (List.mem_filter.mp hmem).2
  have h := (rowMask_iff e.row).mp hmask
  exact ⟨h.1, h.2.1, h.2.2.1, h.2.2.2.1⟩

/-- Witness for C9 at a concrete run with one valid row. -/
theorem C9_witness :
    c9Out.date.isSome = true
    ∧ (∃ q, c9Out.price_gbp = some q ∧ 0 < q)
    ∧ (∃ s, c9Out.region = some s ∧ s ∈ VALID_REGIONS)
    ∧ (∃ s, c9Out.condition = some s ∧ s ∈ VALID_CONDITION) :=
  C9_output_rows_valid c9Rows [] c9Out (by decide)

/-- C4 (amended): the first report equation holds unconditionally:
rows_removed_invalid plus the number of rows the Validator marked valid
equals the input row count. The second holds whenever no surviving row's
category matches more than one lookup row (in particular with unique
lookup keys): the valid count minus rows_removed_duplicates equals the
reported output row count. With duplicated matching lookup keys the
enrichment inflates the output count and the second equation fails. -/
theorem C4_report_totals (rows : List RawRow) (lk : List LookupRow) :
    (buildReport rows lk).rows_removed_invalid
        + ((rows.map coerceRow).filter rowMask).length = rows.length
    ∧ ((∀ r ∈ (dedupe ((rows.map coerceRow).filter rowMask)).1,
          (lkMatches r lk).length ≤ 1) →
        ((rows.map coerceRow).filter rowMask).length
            - (buildReport rows lk).rows_removed_duplicates
          = (buildReport rows lk).output.row_count) := by
  constructor
  · have hpart := filter_partition_length rowMask (rows.map coerceRow)
    have hlen : (rows.map coerceRow).length = rows.length := List.length_map _ _
    have hinv : (buildReport rows lk).rows_removed_invalid
        = ((rows.map coerceRow).filter (fun r => !rowMask r)).length := rfl
    omega
  · intro h
    have hdup : (buildReport rows lk).rows_removed_duplicates
        = ((rows.map coerceRow).filter rowMask).length
          - (dedupe ((rows.map coerceRow).filter rowMask)).1.length := rfl
    have hout : (buildReport rows lk).output.row_count
        = (cleanOutput rows lk).length := rfl
    have hclean : (cleanOutput rows lk).length
        = (enrich (dedupe ((rows.map coerceRow).filter rowMask)).1 lk).length := by
      simp [cleanOutput]
    have hjoin := enrich_length_of_unique
      (dedupe ((rows.map coerceRow).filter rowMask)).1 lk h
    have hle := dedupe_length_le ((rows.map coerceRow).filter rowMask)
    omega

/-- C4 counterexample: with a duplicated lookup key the second report
equation fails on a concrete completed run (valid 1, duplicates removed
0, reported output rows 2). -/
theorem C4_counterexample :
    ((c4Rows.map coerceRow).filter rowMask).length
        - (buildReport c4Rows c3Lk).rows_removed_duplicates
      ≠ (buildReport c4Rows c3Lk).output.row_count := by
  decide

/-- Witness for C4 at a concrete run with a unique lookup key. -/
theorem C4_witness :
    (buildReport c4Rows c4LkU).rows_removed_invalid
        + ((c4Rows.map coerceRow).filter rowMask).length = c4Rows.length
    ∧ ((c4Rows.map coerceRow).filter rowMask).length
        - (buildReport c4Rows c4LkU).rows_removed_duplicates
      = (buildReport c4Rows c4LkU).output.row_count := by
  have h := C4_report_totals c4Rows c4LkU
  exact ⟨h.1, h.2 (by decide)⟩

/-- C7: on the empty final table the Quality Reporter returns row count
0 and all five price statistics absent; the region and category
frequency mappings count the rows with an absent value in the null
bucket (the segment mapping likewise when the segment column exists and
is the empty mapping otherwise); and the reported percentiles are the
linear interpolation between order statistics of the ascending-sorted
non-null price column, at positions p*(n-1) for p = 0.5 and 0.95. -/
theorem C7_quality_stats (rows : List OutRow) (b : Bool) :
    ((qualityStats [] b).row_count = 0
      ∧ (qualityStats [] b).price.min = none
      ∧ (qualityStats [] b).price.max = none
      ∧ (qualityStats [] b).price.avg = none
      ∧ (qualityStats [] b).price.p50 = none
      ∧ (qualityStats [] b).price.p95 = none)
    ∧ (qualityStats rows b).by_region none
        = (rows.filter (fun r => r.region.isNone)).length
    ∧ (qualityStats rows b).by_category none
        = (rows.filter (fun r => r.category.isNone)).length
    ∧ (qualityStats rows false).by_segment = (fun _ => 0)
    ∧ (b = true → (qualityStats rows b).by_segment none
        = (rows.filter (fun r => r.segment.isNone)).length)
    ∧ (∀ s : List ℚ, ∀ p : ℚ, linInterp s p
        = s.getD (⌊p * ((s.length : ℚ) - 1)⌋).toNat 0
          + (p * ((s.length : ℚ) - 1) - ((⌊p * ((s.length : ℚ) - 1)⌋).toNat : ℚ))
            * (s.getD (min ((⌊p * ((s.length : ℚ) - 1)⌋).toNat + 1) (s.length - 1)) 0
              - s.getD (⌊p * ((s.length : ℚ) - 1)⌋).toNat 0))
    ∧ (rows.filterMap (fun r => r.price_gbp) ≠ [] →
        (qualityStats rows b).price.p50
            = some (linInterp ((rows.filterMap (fun r => r.price_gbp)).insertionSort
                (fun a c => a ≤ c)) (1 / 2))
        ∧ (qualityStats rows b).price.p95
            = some (linInterp ((rows.filterMap (fun r => r.price_gbp)).insertionSort
                (fun a c => a ≤ c)) (19 / 20))) := by
  have hregion : ∀ r : OutRow, (r.region == none) = true ↔ r.region.isNone = true := by
    intro r; cases r.region <;> simp
  have hcategory : ∀ r : OutRow, (r.category == none) = true ↔ r.category.isNone = true := by
    intro r; cases r.category <;> simp
  have hsegment : ∀ r : OutRow, (r.segment == none) = true ↔ r.segment.isNone = true := by
    intro r; cases r.segment <;> simp
  refine ⟨⟨rfl, rfl, rfl, rfl, rfl, rfl⟩, ?_, ?_, rfl, ?_, fun s p => rfl, ?_⟩
  · show rows.countP (fun r => r.region == none) = _
    rw [List.countP_congr (fun a _ => hregion a), List.countP_eq_length_filter]
  · show rows.countP (fun r => r.category == none) = _
    rw [List.countP_congr (fun a _ => hcategory a), List.countP_eq_length_filter]
  · intro hb
    subst hb
    show rows.countP (fun r => r.segment == none) = _
    rw [List.countP_congr (fun a _ => hsegment a), List.countP_eq_length_filter]
  · intro hp
    have hne : (rows.filterMap (fun r => r.price_gbp)).length ≠ 0 := by
      intro h0
      exact hp (List.length_eq_zero.mp h0)
    constructor <;> simp [qualityStats, hne, quantileQ]

/-- Witness for C7 at a concrete output table with prices 1 and 3. -/
theorem C7_witness :
    (qualityStats c7Rows true).by_region none
        = (c7Rows.filter (fun r => r.region.isNone)).length
    ∧ (qualityStats c7Rows true).by_segment none
        = (c7Rows.filter (fun r => r.segment.isNone)).length
    ∧ (qualityStats c7Rows true).price.p50
        = some (linInterp ((c7Rows.filterMap (fun r => r.price_gbp)).insertionSort
            (fun a c => a ≤ c)) (1 / 2)) := by
  have h := C7_quality_stats c7Rows true
  exact ⟨h.2.1, h.2.2.2.2.1 rfl, (h.2.2.2.2.2.2 (by decide)).1⟩

end Ingest
